import Mathlib

/-!
# Verification of netprobe's statistics and bufferbloat detection

Shallow embedding of the pure computational core of the `netprobe` Go
repository:

* `pkg/stats/histogram.go` — `LatencyHistogram` and its queries
  (`Min`, `Max`, `Mean`, `StdDev`, `Percentile`, `P50` … `P999`);
* `pkg/stats/jitter.go` — `JitterCalculator` (RFC 3550-style smoothing);
* `pkg/detect/bufferbloat.go` — `Detect` and `assessBufferbloat`.

Modelling conventions:

* `time.Duration` values are represented by their microsecond count as an
  unbounded `ℤ` (every query of the histogram converts samples to
  microseconds first, and all results are whole microsecond multiples;
  comparisons and equalities between durations coincide with those between
  the microsecond counts, since `d ↦ 1000·d` is strictly monotone).
* Go `float64` arithmetic is modelled by exact arithmetic in `ℚ`.
  The `float64 → int64` conversion of a finite value truncates toward
  zero, modelled by `ratTrunc`.  Where a non-finite float (NaN or ±Inf)
  can arise — the division `x/z` inside `sqrt` when `z = 0` — the
  faithful model (`sqrtFloat`, `StdDevFloat`) works in `Option ℚ`, with
  `none` standing for a non-finite value; Go's conversion of a
  non-finite float to `int64` is implementation-specific.
* Go's integer division truncates toward zero, modelled by `Int.tdiv`.
* A histogram value is determined by its list of samples: the `sorted`
  cache and `isDirty` flag of `LatencyHistogram` are semantically
  transparent (`ensureSorted` always reestablishes the sorted copy of
  `samples` before it is read), so the embedding carries the `samples`
  list and sorts on demand, exactly as `ensureSorted` does.
* Go's `sort.Slice` with the strict `<` comparator produces the unique
  nondecreasing reordering of the samples, which is what `mergeSort`
  with `≤` produces as well.
-/

namespace Stats

/-- Truncation toward zero of a rational number.  Models Go's `int64(x)`
conversion applied to a (non-NaN) `float64`. -/
def ratTrunc (q : ℚ) : ℤ := if q < 0 then -Rat.floor (-q) else Rat.floor q

/-- `sqrt` from `pkg/stats/histogram.go`:

```go
func sqrt(x float64) float64 {
    if x < 0 { return 0 }
    z := x
    for i := 0; i < 10; i++ { z = (z + x/z) / 2 }
    return z
}
```

Ten Newton iterations seeded at `x` itself, in exact rational arithmetic.
This exact-rational version collapses the float division `0/0` (NaN) to
`ℚ`'s `0/0 = 0`, so it models the Go code faithfully only when the loop
never divides by zero, i.e. for `x > 0`; `sqrtFloat` below tracks the
non-finite path explicitly, and `sqrtFloat_pos` proves the two agree for
`x > 0`. -/
def sqrt (x : ℚ) : ℚ :=
  if x < 0 then 0
  else (fun z => (z + x / z) / 2)^[10] x

/-- `ensureSorted` from `histogram.go`: the histogram's queries read a
sorted copy of `samples` (Go sorts with `sort.Slice` ascending). -/
def sortSamples (s : List ℤ) : List ℤ := s.mergeSort

/-- `Min` from `histogram.go`: `0` on an empty histogram, else `sorted[0]`. -/
def Min (s : List ℤ) : ℤ :=
  if s.length = 0 then 0
  else (sortSamples s).getD 0 0

/-- `Max` from `histogram.go`: `0` on an empty histogram, else
`sorted[len(sorted)-1]`. -/
def Max (s : List ℤ) : ℤ :=
  if s.length = 0 then 0
  else (sortSamples s).getD ((sortSamples s).length - 1) 0

/-- `Mean` from `histogram.go`: sum of the samples divided (Go integer
division) by their number; `0` on an empty histogram. -/
def Mean (s : List ℤ) : ℤ :=
  if s.length = 0 then 0
  else (s.foldl (· + ·) 0).tdiv s.length

/-- `StdDev` from `histogram.go`: `0` with fewer than 2 samples, else the
truncation of `sqrt(variance)` where `variance` is the integer quotient of
the sum of squared deviations from `Mean` by the number of samples.
Because it uses the exact-rational `sqrt`, this is the code's value only
away from the variance-zero path (there the code's float `sqrt` returns
NaN); `StdDevFloat` below is the faithful model including that path.
The theorems use this version only under the `length < 2` guard, which
never reaches `sqrt`. -/
def StdDev (s : List ℤ) : ℤ :=
  if s.length < 2 then 0
  else
    let m := Mean s
    let sumSquares := s.foldl (fun acc sample => acc + (sample - m) * (sample - m)) 0
    let variance := sumSquares.tdiv s.length
    ratTrunc (sqrt (variance : ℚ))

/-- The specification's version of `StdDev` ("the square root of the
population variance"), for comparison with the code's `StdDev`: identical
except that the Newton approximation `sqrt` is replaced by the exact
integer square root. -/
def stdDevSpecSqrt (s : List ℤ) : ℤ :=
  if s.length < 2 then 0
  else
    let m := Mean s
    let sumSquares := s.foldl (fun acc sample => acc + (sample - m) * (sample - m)) 0
    let variance := sumSquares.tdiv s.length
    Int.sqrt variance

/-- One iteration `z = (z + x/z) / 2` of the Go `sqrt` loop over `float64`
values modelled as `Option ℚ`: `some z` is the exact finite value `z`,
`none` a non-finite value (NaN or ±Inf).  A division by `z = 0` yields a
non-finite result (`0/0` is NaN, `x/0` with `x ≠ 0` is `±Inf`), and a
non-finite `z` stays non-finite through `(z + x/z)/2` (NaN propagates;
for `z = ±Inf`, `x/z` is `0` and `z + 0` remains `±Inf`). -/
def sqrtFloatStep (x : ℚ) (oz : Option ℚ) : Option ℚ :=
  match oz with
  | none => none
  | some z => if z = 0 then none else some ((z + x / z) / 2)

/-- `sqrt` from `histogram.go` with the non-finite float path tracked:
ten iterations of `sqrtFloatStep` seeded at `x`.  For `x > 0` the loop
stays on positive finite values and agrees with the exact-rational
`sqrt` (`sqrtFloat_pos`); for `x = 0` the first iteration divides
`0/0` and the loop returns NaN (`none`). -/
def sqrtFloat (x : ℚ) : Option ℚ :=
  if x < 0 then some 0
  else (sqrtFloatStep x)^[10] (some x)

/-- `StdDev` from `histogram.go` with the float path made explicit:
`some d` means the code returns the duration `d` µs; `none` means the
Newton loop produced a non-finite float — for an all-equal distribution
the variance is `0` and the first iteration computes `0/0 = NaN` — and
the code returns the implementation-specific `int64` conversion of that
non-finite value. -/
def StdDevFloat (s : List ℤ) : Option ℤ :=
  if s.length < 2 then some 0
  else
    let m := Mean s
    let sumSquares := s.foldl (fun acc sample => acc + (sample - m) * (sample - m)) 0
    let variance := sumSquares.tdiv s.length
    (sqrtFloat (variance : ℚ)).map ratTrunc

/-- The index-interpolation step of `Percentile` from `histogram.go`,
applied to the sorted sample list and the real-valued index
`(p/100)·(n-1)`:

```go
lower := int(index)
upper := lower + 1
frac := index - float64(lower)
if upper >= len(h.sorted) { return duration(h.sorted[lower]) }
interpolated := float64(h.sorted[lower])*(1-frac) + float64(h.sorted[upper])*frac
return duration(int64(interpolated))
```
-/
def interpAt (l : List ℤ) (index : ℚ) : ℤ :=
  let lower : ℤ := ratTrunc index
  let upper : ℤ := lower + 1
  let frac : ℚ := index - (lower : ℚ)
  if (l.length : ℤ) ≤ upper then l.getD lower.toNat 0
  else ratTrunc ((l.getD lower.toNat 0 : ℚ) * (1 - frac) + (l.getD upper.toNat 0 : ℚ) * frac)

/-- `Percentile` from `histogram.go`. -/
def Percentile (s : List ℤ) (p : ℚ) : ℤ :=
  if s.length = 0 then 0
  else if p < 0 ∨ p > 100 then 0
  else interpAt (sortSamples s) ((p / 100) * ((sortSamples s).length - 1 : ℤ))

/-- `JitterCalculator` from `pkg/stats/jitter.go`. -/
structure JitterCalculator where
  lastTimestamp : ℤ
  interarrival : ℤ
  jitter : ℤ
  count : ℕ
  initialized : Bool
deriving DecidableEq

/-- `NewJitterCalculator` from `jitter.go` (Go zero-initializes the
numeric fields). -/
def NewJitterCalculator : JitterCalculator :=
  { lastTimestamp := 0, interarrival := 0, jitter := 0, count := 0, initialized := false }

/-- `AddSample` from `jitter.go`, taking the RTT in microseconds:

```go
if !jc.initialized { jc.lastTimestamp = rttMicros; jc.initialized = true; return }
d := arrival - jc.lastTimestamp
if d < 0 { d = -d }
diff := d - jc.jitter
if diff < 0 { diff = -diff }
jc.jitter = jc.jitter + diff/16
jc.lastTimestamp = arrival
jc.count++
```
-/
def AddSample (jc : JitterCalculator) (rttMicros : ℤ) : JitterCalculator :=
  if !jc.initialized then
    { jc with lastTimestamp := rttMicros, initialized := true }
  else
    let arrival := rttMicros
    let d0 := arrival - jc.lastTimestamp
    let d := if d0 < 0 then -d0 else d0
    let diff0 := d - jc.jitter
    let diff := if diff0 < 0 then -diff0 else diff0
    { jc with
        jitter := jc.jitter + diff.tdiv 16
        lastTimestamp := arrival
        count := jc.count + 1 }

/-- Feeding a list of RTT samples (in microseconds) to a fresh
`JitterCalculator`, as `CalculateJitterStats` does. -/
def runJitter (rtts : List ℤ) : JitterCalculator :=
  rtts.foldl AddSample NewJitterCalculator

end Stats

namespace Detect

/-- `BufferbloatResult` from `pkg/detect/bufferbloat.go`.  Latency fields
hold microsecond counts; the increase ratios are `float64`s modelled in
`ℚ`. -/
structure BufferbloatResult where
  IdleLatencyP50 : ℤ
  IdleLatencyP99 : ℤ
  IdleLatencyMax : ℤ
  LoadLatencyP50 : ℤ
  LoadLatencyP99 : ℤ
  LoadLatencyMax : ℤ
  P50Increase : ℚ
  P99Increase : ℚ
  MaxIncrease : ℚ
  IsBufferbloated : Bool
  Severity : String
  Explanation : String
deriving DecidableEq

/-- The error returned by `Detect` when the idle-phase probe fails:
`fmt.Errorf("failed to measure idle latency: %w", err)` — a message
together with the wrapped underlying probe error. -/
structure DetectError (ε : Type) where
  msg : String
  wrapped : ε
deriving DecidableEq

/-- `assessBufferbloat` from `bufferbloat.go` (fixed priority order). -/
def assessBufferbloat (result : BufferbloatResult) : String × String :=
  let p50Increase := result.P50Increase
  let p99Increase := result.P99Increase
  if p99Increase > 5.0 then
    ("Severe", "Latency increased dramatically under load. Buffer bloat is severe - consider optimizing buffer sizes or traffic shaping.")
  else if p99Increase > 3.0 then
    ("Moderate", "Significant latency increase under load. Moderate buffer bloat detected - network may benefit from QoS improvements.")
  else if p99Increase > 1.5 ∨ p50Increase > 2.0 then
    ("Mild", "Noticeable latency increase under load. Mild buffer bloat - monitor for potential issues.")
  else
    ("None", "Latency remained stable under load. No significant buffer bloat detected.")

/-- The loaded-phase sample collection loop of `Detect`: each of the
`loadCount` iterations invokes `probeFn(1)` and appends the first returned
latency exactly when the call succeeded with a non-empty result
(`if err == nil && len(latencies) > 0`). -/
def loadedSamples {ε : Type} (outcomes : List (Except ε (List ℤ))) : List ℤ :=
  outcomes.filterMap fun o =>
    match o with
    | .ok (x :: _) => some x
    | _ => none

/-- `Detect` from `bufferbloat.go`, as a function of the outcome of the
idle-phase probe invocation (`probeFn(idleCount)`) and of the outcomes of
the `loadCount` loaded-phase probe invocations (`probeFn(1)` each).  The
background load generator goroutine only discards its results
(`_ = bd.probeFn(1)`) and the mutex-protected append runs in the single
measuring loop, so the result is a pure function of those outcomes. -/
def Detect {ε : Type} (idleOutcome : Except ε (List ℤ))
    (loadOutcomes : List (Except ε (List ℤ))) :
    Except (DetectError ε) BufferbloatResult :=
  match idleOutcome with
  | .error e => .error { msg := "failed to measure idle latency", wrapped := e }
  | .ok idleLatencies =>
    let loadedLatencies := loadedSamples loadOutcomes
    let idleLatencyP50 := Stats.Percentile idleLatencies 50
    let idleLatencyP99 := Stats.Percentile idleLatencies 99
    let idleLatencyMax := Stats.Max idleLatencies
    let loadLatencyP50 := Stats.Percentile loadedLatencies 50
    let loadLatencyP99 := Stats.Percentile loadedLatencies 99
    let loadLatencyMax := Stats.Max loadedLatencies
    let p50Increase : ℚ := if idleLatencyP50 > 0 then (loadLatencyP50 : ℚ) / (idleLatencyP50 : ℚ) else 0
    let p99Increase : ℚ := if idleLatencyP99 > 0 then (loadLatencyP99 : ℚ) / (idleLatencyP99 : ℚ) else 0
    let maxIncrease : ℚ := if idleLatencyMax > 0 then (loadLatencyMax : ℚ) / (idleLatencyMax : ℚ) else 0
    let base : BufferbloatResult :=
      { IdleLatencyP50 := idleLatencyP50
        IdleLatencyP99 := idleLatencyP99
        IdleLatencyMax := idleLatencyMax
        LoadLatencyP50 := loadLatencyP50
        LoadLatencyP99 := loadLatencyP99
        LoadLatencyMax := loadLatencyMax
        P50Increase := p50Increase
        P99Increase := p99Increase
        MaxIncrease := maxIncrease
        IsBufferbloated := decide (p50Increase > 1.5 ∨ p99Increase > 2.0)
        Severity := ""
        Explanation := "" }
    let assessed := assessBufferbloat base
    .ok { base with Severity := assessed.1, Explanation := assessed.2 }

end Detect

namespace Stats

theorem ite_neg_abs (a : ℤ) : (if a < 0 then -a else a) = |a| := by
  rcases lt_or_le a 0 with h | h
  · simp [h, abs_of_neg h]
  · simp [not_lt.2 h, abs_of_nonneg h]

theorem AddSample_not_initialized (jc : JitterCalculator) (v : ℤ)
    (h : jc.initialized = false) :
    AddSample jc v = { jc with lastTimestamp := v, initialized := true } := by
  simp [AddSample, h]

theorem AddSample_jitter_step (jc : JitterCalculator) (v : ℤ)
    (h : jc.initialized = true) :
    (AddSample jc v).jitter = jc.jitter + (|(|v - jc.lastTimestamp|) - jc.jitter|).tdiv 16 := by
  simp only [AddSample, h, Bool.not_true, Bool.false_eq_true, if_false, ite_neg_abs]

theorem AddSample_jitter_mono (jc : JitterCalculator) (v : ℤ) :
    jc.jitter ≤ (AddSample jc v).jitter := by
  unfold AddSample
  split
  · exact le_refl _
  · simp only
    exact le_add_of_nonneg_right (Int.tdiv_nonneg (by rw [ite_neg_abs]; exact abs_nonneg _) (by norm_num))

theorem foldl_AddSample_jitter_mono (l : List ℤ) (jc : JitterCalculator) :
    jc.jitter ≤ (l.foldl AddSample jc).jitter := by
  induction l generalizing jc with
  | nil => exact le_refl _
  | cons a t ih => exact (AddSample_jitter_mono jc a).trans (ih (AddSample jc a))

theorem foldl_AddSample_replicate_const (n : ℕ) (v : ℤ) (jc : JitterCalculator)
    (hinit : jc.initialized = true) (hlast : jc.lastTimestamp = v) (hj : jc.jitter = 0) :
    ((List.replicate n v).foldl AddSample jc).jitter = 0 := by
  induction n generalizing jc with
  | zero => simpa using hj
  | succ m ih =>
    rw [List.replicate_succ, List.foldl_cons]
    apply ih
    · simp [AddSample, hinit]
    · simp [AddSample, hinit]
    · simp [AddSample, hinit, hlast, hj]

end Stats

namespace Stats

/-- C5: a fresh jitter estimator fed the RTT sequence
[10ms, 12ms, 10ms, 14ms] (10000, 12000, 10000, 14000 µs) has estimate 0
after the first sample (which only seeds `lastTimestamp`), 125 µs after the
second, 242 µs after the third and 476 µs after the fourth, following the
truncating integer recurrence
`estimate ← estimate + |d − estimate|/16`, `d = |v − previousSampleValue|`. -/
theorem jitter_example_trace :
    (runJitter [10000]).jitter = 0 ∧
    (runJitter [10000, 12000]).jitter = 125 ∧
    (runJitter [10000, 12000, 10000]).jitter = 242 ∧
    (runJitter [10000, 12000, 10000, 14000]).jitter = 476 ∧
    ∀ (jc : JitterCalculator) (v : ℤ), jc.initialized = true →
      (AddSample jc v).jitter = jc.jitter + (|(|v - jc.lastTimestamp|) - jc.jitter|).tdiv 16 := by
  refine ⟨by decide, by decide, by decide, by decide, AddSample_jitter_step⟩

/-- Witness for `jitter_example_trace`: the recurrence applied to the
concrete state reached after the first two samples. -/
theorem jitter_example_trace_witness :
    (AddSample { lastTimestamp := 12000, interarrival := 0, jitter := 125, count := 1,
                 initialized := true } 10000).jitter
      = 125 + (|(|(10000 : ℤ) - 12000|) - 125|).tdiv 16 :=
  (jitter_example_trace.2.2.2.2) _ 10000 rfl

/-- C9: the jitter estimate is never negative; it is still 0 when fewer
than two samples have been added (so `JitterDuration` returns zero
duration); and a fresh estimator fed any constant-RTT stream has
estimate 0 after every sample. -/
theorem jitter_nonneg_and_constant_stream :
    (∀ rtts : List ℤ, 0 ≤ (runJitter rtts).jitter) ∧
    (∀ rtts : List ℤ, rtts.length < 2 → (runJitter rtts).jitter = 0) ∧
    (∀ (n : ℕ) (v : ℤ), (runJitter (List.replicate n v)).jitter = 0) := by
  refine ⟨fun rtts => foldl_AddSample_jitter_mono rtts NewJitterCalculator, ?_, ?_⟩
  · intro rtts h
    match rtts, h with
    | [], _ => rfl
    | [a], _ => simp [runJitter, NewJitterCalculator, AddSample]
  · intro n v
    match n with
    | 0 => rfl
    | m + 1 =>
      rw [runJitter, List.replicate_succ, List.foldl_cons,
        AddSample_not_initialized _ _ rfl]
      exact foldl_AddSample_replicate_const m v _ rfl rfl rfl

/-- Witness for `jitter_nonneg_and_constant_stream`: a single sample
leaves the estimate at zero. -/
theorem jitter_nonneg_and_constant_stream_witness :
    (runJitter [5]).jitter = 0 :=
  jitter_nonneg_and_constant_stream.2.1 [5] (by decide)

/-- C10: the jitter estimate is monotone non-decreasing over the life of a
`JitterCalculator`: every `AddSample` call leaves the estimate unchanged
or larger (the update adds the non-negative `|d − estimate|/16`), and
hence the estimate after processing any further samples is at least the
current one — once positive, it never decreases back toward zero. -/
theorem jitter_monotone :
    (∀ (jc : JitterCalculator) (v : ℤ), jc.jitter ≤ (AddSample jc v).jitter) ∧
    (∀ (jc : JitterCalculator) (rtts : List ℤ), jc.jitter ≤ (rtts.foldl AddSample jc).jitter) :=
  ⟨AddSample_jitter_mono, fun jc rtts => foldl_AddSample_jitter_mono rtts jc⟩

end Stats

namespace Stats

theorem ratFloor_eq_floor (q : ℚ) : Rat.floor q = ⌊q⌋ := by
  rw [Rat.floor_def', ← Rat.floor_def]

theorem ratTrunc_eq (q : ℚ) : ratTrunc q = if q < 0 then ⌈q⌉ else ⌊q⌋ := by
  unfold ratTrunc
  rw [ratFloor_eq_floor, ratFloor_eq_floor, Int.floor_neg, neg_neg]

theorem le_ratTrunc (m : ℤ) (q : ℚ) (h : (m : ℚ) ≤ q) : m ≤ ratTrunc q := by
  rw [ratTrunc_eq]
  split
  · exact_mod_cast h.trans (Int.le_ceil q)
  · exact Int.le_floor.2 h

theorem ratTrunc_le (m : ℤ) (q : ℚ) (h : q ≤ (m : ℚ)) : ratTrunc q ≤ m := by
  rw [ratTrunc_eq]
  split
  · exact Int.ceil_le.2 h
  · exact_mod_cast (Int.floor_le q).trans h

theorem ratTrunc_mono {q r : ℚ} (h : q ≤ r) : ratTrunc q ≤ ratTrunc r := by
  rw [ratTrunc_eq, ratTrunc_eq]
  rcases lt_or_le q 0 with hq | hq
  · rcases lt_or_le r 0 with hr | hr
    · rw [if_pos hq, if_pos hr]
      exact Int.ceil_le_ceil h
    · rw [if_pos hq, if_neg (not_lt.2 hr)]
      have h1 : (⌈q⌉ : ℤ) ≤ 0 := by
        have := Int.ceil_le.2 (le_of_lt hq)
        simpa using this
      exact h1.trans (Int.floor_nonneg.2 hr)
  · rw [if_neg (not_lt.2 hq), if_neg (not_lt.2 (hq.trans h))]
    exact Int.floor_le_floor h

theorem ratTrunc_intCast (m : ℤ) : ratTrunc (m : ℚ) = m := by
  rw [ratTrunc_eq]
  split <;> simp

theorem ratTrunc_nonneg_eq_floor {q : ℚ} (h : 0 ≤ q) : ratTrunc q = ⌊q⌋ := by
  rw [ratTrunc_eq, if_neg (not_lt.2 h)]

end Stats

namespace Stats

theorem sqrtFloat_zero : sqrtFloat 0 = none := by
  rw [sqrtFloat, if_neg (by norm_num)]
  have h1 : sqrtFloatStep 0 (some 0) = none := by simp [sqrtFloatStep]
  have h2 : sqrtFloatStep 0 none = none := rfl
  rw [show (10 : ℕ) = 9 + 1 from rfl, Function.iterate_succ_apply, h1]
  exact Function.iterate_fixed h2 9

theorem sqrtFloat_iterate_pos (x : ℚ) (hx : 0 < x) :
    ∀ (n : ℕ) (z : ℚ), 0 < z →
      (sqrtFloatStep x)^[n] (some z) = some ((fun w => (w + x / w) / 2)^[n] z) ∧
      0 < (fun w => (w + x / w) / 2)^[n] z := by
  intro n
  induction n with
  | zero => exact fun z hz => ⟨rfl, hz⟩
  | succ m ih =>
    intro z hz
    have hz' : 0 < (z + x / z) / 2 := by positivity
    have hstep : sqrtFloatStep x (some z) = some ((z + x / z) / 2) := by
      simp [sqrtFloatStep, hz.ne']
    rw [Function.iterate_succ_apply, Function.iterate_succ_apply, hstep]
    exact ih ((z + x / z) / 2) hz'

theorem sqrtFloat_pos {x : ℚ} (hx : 0 < x) : sqrtFloat x = some (sqrt x) := by
  rw [sqrtFloat, if_neg (not_lt.2 hx.le), sqrt, if_neg (not_lt.2 hx.le)]
  exact (sqrtFloat_iterate_pos x hx 10 x hx).1

theorem StdDevFloat_example : StdDevFloat [0, 20000] = some 97997 := by
  have hvar : StdDevFloat [0, 20000] = (sqrtFloat ((100000000 : ℤ) : ℚ)).map ratTrunc := by
    with_unfolding_all rfl
  have hpos : sqrtFloat ((100000000 : ℤ) : ℚ) = some (sqrt ((100000000 : ℤ) : ℚ)) :=
    sqrtFloat_pos (by norm_num)
  have htr : ratTrunc (sqrt ((100000000 : ℤ) : ℚ)) = 97997 := by
    have hc : ((100000000 : ℤ) : ℚ) = 100000000 := by norm_num
    rw [hc]
    with_unfolding_all decide
  rw [hvar, hpos, Option.map_some', htr]

theorem foldl_add_replicate (n : ℕ) (v a : ℤ) :
    (List.replicate n v).foldl (· + ·) a = a + n * v := by
  induction n generalizing a with
  | zero => simp
  | succ m ih =>
    rw [List.replicate_succ, List.foldl_cons, ih]
    push_cast
    ring

theorem Mean_replicate (n : ℕ) (v : ℤ) (h : 1 ≤ n) : Mean (List.replicate n v) = v := by
  rw [Mean, if_neg (by simp; omega), foldl_add_replicate]
  simp only [List.length_replicate, zero_add]
  exact Int.mul_tdiv_cancel_left v (Int.natCast_ne_zero.2 (by omega))

theorem foldl_sq_replicate_self (n : ℕ) (v a : ℤ) :
    (List.replicate n v).foldl (fun acc sample => acc + (sample - v) * (sample - v)) a = a := by
  induction n generalizing a with
  | zero => simp
  | succ m ih => rw [List.replicate_succ, List.foldl_cons]; simpa using ih a

/-- C1 (amended): `StdDev` returns zero duration with fewer than 2
samples.  With at least 2 samples and strictly positive variance it
returns the truncation of ten Newton iterations seeded at the variance
(the code's `sqrt`), which is *not* in general the square root of the
variance — for samples 0 µs and 20000 µs (variance 10⁸ µs²) it returns
97997 µs, not the exact root 10000 µs.  On an all-equal distribution
(variance 0) the `sqrt` loop divides `0/0` — a float NaN — on its first
iteration, so the code returns the implementation-specific `int64`
conversion of a non-finite value (`none` in the model), not (portably)
zero duration. -/
theorem StdDev_behaviour :
    (∀ s : List ℤ, s.length < 2 → StdDevFloat s = some 0) ∧
    (∀ (v : ℤ) (n : ℕ), 2 ≤ n → StdDevFloat (List.replicate n v) = none) ∧
    (∀ x : ℚ, 0 < x → sqrtFloat x = some (sqrt x)) ∧
    StdDevFloat [0, 20000] = some 97997 := by
  refine ⟨?_, ?_, fun x hx => sqrtFloat_pos hx, StdDevFloat_example⟩
  · intro s h
    rw [StdDevFloat, if_pos h]
  · intro v n h
    simp only [StdDevFloat, List.length_replicate, if_neg (by omega : ¬n < 2),
      Mean_replicate n v (by omega), foldl_sq_replicate_self]
    norm_num [sqrtFloat_zero]

/-- Witness for `StdDev_behaviour`: applied to a 1-sample list (zero) and
to an all-equal 3-sample list (the non-finite NaN path). -/
theorem StdDev_behaviour_witness :
    StdDevFloat [5] = some 0 ∧ StdDevFloat [7, 7, 7] = none := by
  constructor
  · exact StdDev_behaviour.1 [5] (by norm_num)
  · have h := StdDev_behaviour.2.1 7 3 (by norm_num)
    simpa [List.replicate] using h

/-- C1 (counterexample): on the two-sample distribution {0 µs, 20000 µs}
the code's `StdDev` (97997 µs: ten Newton iterations seeded at the
variance, not converged) differs from the specified population standard
deviation (the exact square root 10000 µs of the variance 10⁸ µs²); and
on the all-equal distribution {7, 7, 7} µs the code takes the `0/0` NaN
path, returning an implementation-specific value (`none`) rather than
the claimed zero duration. -/
theorem StdDev_ne_sqrt_variance :
    StdDevFloat [0, 20000] ≠ some (stdDevSpecSqrt [0, 20000]) ∧
    stdDevSpecSqrt [0, 20000] = 10000 ∧
    StdDevFloat [7, 7, 7] ≠ some 0 := by
  have hspec : stdDevSpecSqrt [0, 20000] = Int.sqrt 100000000 := by
    with_unfolding_all rfl
  have hsqrt : (Int.sqrt 100000000 : ℤ) = 10000 := by
    unfold Int.sqrt
    have ht : Int.toNat 100000000 = 100000000 := rfl
    rw [ht]
    have h2 : (100000000 : ℕ) = 10000 * 10000 := by norm_num
    rw [h2, Nat.sqrt_eq]
    norm_num
  have hfloat : StdDevFloat [0, 20000] = some 97997 := StdDevFloat_example
  refine ⟨?_, hspec.trans hsqrt, by with_unfolding_all decide⟩
  rw [hfloat, hspec.trans hsqrt]
  simp

end Stats

namespace Stats

theorem sortSamples_sorted (s : List ℤ) : (sortSamples s).Pairwise (· ≤ ·) :=
  List.sorted_mergeSort' s

theorem sortSamples_length (s : List ℤ) : (sortSamples s).length = s.length := by
  simp [sortSamples]

theorem getD_mono_of_pairwise {l : List ℤ} (hs : l.Pairwise (· ≤ ·)) {i j : ℕ}
    (hij : i ≤ j) (hj : j < l.length) : l.getD i 0 ≤ l.getD j 0 := by
  have hi : i < l.length := lt_of_le_of_lt hij hj
  rcases eq_or_lt_of_le hij with rfl | hlt
  · exact le_refl _
  · have h := List.pairwise_iff_getElem.mp hs i j hi hj hlt
    simpa [List.getD_eq_getElem?_getD, List.getElem?_eq_getElem, hi, hj] using h

theorem floor_index_bound (n : ℕ) (x : ℚ) (h : x ≤ (n : ℚ) - 1) : ⌊x⌋ ≤ (n : ℤ) - 1 := by
  have h2 : x ≤ (((n : ℤ) - 1 : ℤ) : ℚ) := by push_cast; linarith
  have := Int.floor_le_floor h2
  rwa [Int.floor_intCast] at this

theorem getD_floor_le_interpAt {l : List ℤ} (hs : l.Pairwise (· ≤ ·)) {x : ℚ}
    (hx0 : 0 ≤ x) : l.getD (⌊x⌋.toNat) 0 ≤ interpAt l x := by
  have hfx : (0 : ℤ) ≤ ⌊x⌋ := Int.floor_nonneg.2 hx0
  simp only [interpAt, ratTrunc_nonneg_eq_floor hx0]
  split
  · exact le_refl _
  · rename_i hbr
    apply le_ratTrunc
    have htn : (⌊x⌋ + 1).toNat = ⌊x⌋.toNat + 1 := by omega
    rw [htn]
    have hlt : ⌊x⌋.toNat + 1 < l.length := by omega
    have hab : ((l.getD ⌊x⌋.toNat 0 : ℤ) : ℚ) ≤ ((l.getD (⌊x⌋.toNat + 1) 0 : ℤ) : ℚ) := by
      exact_mod_cast getD_mono_of_pairwise hs (Nat.le_succ _) hlt
    have hf0 : 0 ≤ x - (⌊x⌋ : ℚ) := by linarith [Int.floor_le x]
    nlinarith [mul_nonneg hf0 (sub_nonneg.2 hab)]

theorem interpAt_le_getD_floor_succ {l : List ℤ} (hs : l.Pairwise (· ≤ ·)) {x : ℚ}
    (hx0 : 0 ≤ x) (hbr : ⌊x⌋ + 1 < (l.length : ℤ)) :
    interpAt l x ≤ l.getD (⌊x⌋.toNat + 1) 0 := by
  have hfx : (0 : ℤ) ≤ ⌊x⌋ := Int.floor_nonneg.2 hx0
  simp only [interpAt, ratTrunc_nonneg_eq_floor hx0]
  rw [if_neg (by omega : ¬((l.length : ℤ) ≤ ⌊x⌋ + 1))]
  have htn : (⌊x⌋ + 1).toNat = ⌊x⌋.toNat + 1 := by omega
  rw [htn]
  apply ratTrunc_le
  have hlt : ⌊x⌋.toNat + 1 < l.length := by omega
  have hab : ((l.getD ⌊x⌋.toNat 0 : ℤ) : ℚ) ≤ ((l.getD (⌊x⌋.toNat + 1) 0 : ℤ) : ℚ) := by
    exact_mod_cast getD_mono_of_pairwise hs (Nat.le_succ _) hlt
  have hf1 : x - (⌊x⌋ : ℚ) ≤ 1 := by linarith [Int.lt_floor_add_one x]
  nlinarith [mul_nonneg (sub_nonneg.2 hab) (by linarith : (0 : ℚ) ≤ 1 - (x - (⌊x⌋ : ℚ)))]

theorem interpAt_le_last {l : List ℤ} (hs : l.Pairwise (· ≤ ·)) (hlen : 1 ≤ l.length)
    {x : ℚ} (hx0 : 0 ≤ x) (hx1 : x ≤ (l.length : ℚ) - 1) :
    interpAt l x ≤ l.getD (l.length - 1) 0 := by
  have hfx : (0 : ℤ) ≤ ⌊x⌋ := Int.floor_nonneg.2 hx0
  have hfl : ⌊x⌋ ≤ (l.length : ℤ) - 1 := floor_index_bound l.length x hx1
  by_cases hbr : ⌊x⌋ + 1 < (l.length : ℤ)
  · exact (interpAt_le_getD_floor_succ hs hx0 hbr).trans
      (getD_mono_of_pairwise hs (by omega) (by omega))
  · simp only [interpAt, ratTrunc_nonneg_eq_floor hx0]
    rw [if_pos (by omega : (l.length : ℤ) ≤ ⌊x⌋ + 1)]
    exact getD_mono_of_pairwise hs (by omega) (by omega)

theorem interpAt_mono {l : List ℤ} (hs : l.Pairwise (· ≤ ·)) (hlen : 1 ≤ l.length)
    {x y : ℚ} (hx0 : 0 ≤ x) (hxy : x ≤ y) (hy1 : y ≤ (l.length : ℚ) - 1) :
    interpAt l x ≤ interpAt l y := by
  have hy0 : 0 ≤ y := hx0.trans hxy
  have hfx : (0 : ℤ) ≤ ⌊x⌋ := Int.floor_nonneg.2 hx0
  have hfyN : ⌊y⌋ ≤ (l.length : ℤ) - 1 := floor_index_bound l.length y hy1
  rcases eq_or_lt_of_le (Int.floor_le_floor hxy) with heq | hlt
  · simp only [interpAt, ratTrunc_nonneg_eq_floor hx0, ratTrunc_nonneg_eq_floor hy0, ← heq]
    split
    · exact le_refl _
    · rename_i hbr
      apply ratTrunc_mono
      have hltN : ⌊x⌋.toNat + 1 < l.length := by omega
      have htn : (⌊x⌋ + 1).toNat = ⌊x⌋.toNat + 1 := by omega
      rw [htn]
      have hab : ((l.getD ⌊x⌋.toNat 0 : ℤ) : ℚ) ≤ ((l.getD (⌊x⌋.toNat + 1) 0 : ℤ) : ℚ) := by
        exact_mod_cast getD_mono_of_pairwise hs (Nat.le_succ _) hltN
      nlinarith [mul_nonneg (sub_nonneg.2 hxy) (sub_nonneg.2 hab)]
  · have hbrx : ⌊x⌋ + 1 < (l.length : ℤ) := by omega
    refine (interpAt_le_getD_floor_succ hs hx0 hbrx).trans ?_
    refine le_trans ?_ (getD_floor_le_interpAt hs hy0)
    exact getD_mono_of_pairwise hs (by omega) (by omega)

end Stats

namespace Stats

theorem Percentile_in_range (s : List ℤ) (hlen0 : s.length ≠ 0) (p : ℚ)
    (hp0 : 0 ≤ p) (hp1 : p ≤ 100) :
    Percentile s p = interpAt (sortSamples s) ((p / 100) * ((sortSamples s).length - 1 : ℤ)) := by
  rw [Percentile, if_neg hlen0, if_neg (by rw [not_or]; exact ⟨not_lt.2 hp0, not_lt.2 hp1⟩)]

theorem index_nonneg {n : ℕ} (hn : 1 ≤ n) {p : ℚ} (hp0 : 0 ≤ p) :
    0 ≤ (p / 100) * (((n : ℤ) - 1 : ℤ) : ℚ) :=
  mul_nonneg (div_nonneg hp0 (by norm_num))
    (by exact_mod_cast (by omega : (0 : ℤ) ≤ (n : ℤ) - 1))

theorem index_le {n : ℕ} (hn : 1 ≤ n) {p : ℚ} (hp0 : 0 ≤ p) (hp1 : p ≤ 100) :
    (p / 100) * (((n : ℤ) - 1 : ℤ) : ℚ) ≤ (n : ℚ) - 1 := by
  have hc : (((n : ℤ) - 1 : ℤ) : ℚ) = (n : ℚ) - 1 := by push_cast; ring
  have hc0 : (0 : ℚ) ≤ (((n : ℤ) - 1 : ℤ) : ℚ) := by
    exact_mod_cast (by omega : (0 : ℤ) ≤ (n : ℤ) - 1)
  calc (p / 100) * (((n : ℤ) - 1 : ℤ) : ℚ)
      ≤ 1 * (((n : ℤ) - 1 : ℤ) : ℚ) :=
        mul_le_mul_of_nonneg_right ((div_le_one (by norm_num)).2 hp1) hc0
    _ = (n : ℚ) - 1 := by rw [one_mul, hc]

theorem Percentile_bounds (s : List ℤ) (hne : s ≠ []) (p : ℚ)
    (hp0 : 0 ≤ p) (hp1 : p ≤ 100) :
    Min s ≤ Percentile s p ∧ Percentile s p ≤ Max s := by
  have hlen0 : s.length ≠ 0 := fun h => hne (List.length_eq_zero.mp h)
  have hs := sortSamples_sorted s
  have hslen := sortSamples_length s
  have hlen : 1 ≤ (sortSamples s).length := by omega
  have hx0 := index_nonneg hlen hp0
  have hx1 := index_le hlen hp0 hp1
  rw [Percentile_in_range s hlen0 p hp0 hp1, Min, if_neg hlen0, Max, if_neg hlen0]
  constructor
  · refine le_trans ?_ (getD_floor_le_interpAt hs hx0)
    have hfl := floor_index_bound (sortSamples s).length _ hx1
    exact getD_mono_of_pairwise hs (Nat.zero_le _)
      (by have := Int.floor_nonneg.2 hx0; omega)
  · exact interpAt_le_last hs hlen hx0 hx1

theorem Percentile_mono (s : List ℤ) (hne : s ≠ []) (p q : ℚ)
    (hp0 : 0 ≤ p) (hpq : p ≤ q) (hq1 : q ≤ 100) :
    Percentile s p ≤ Percentile s q := by
  have hlen0 : s.length ≠ 0 := fun h => hne (List.length_eq_zero.mp h)
  have hs := sortSamples_sorted s
  have hslen := sortSamples_length s
  have hlen : 1 ≤ (sortSamples s).length := by omega
  have hq0 : 0 ≤ q := hp0.trans hpq
  rw [Percentile_in_range s hlen0 p hp0 (hpq.trans hq1),
    Percentile_in_range s hlen0 q hq0 hq1]
  refine interpAt_mono hs hlen (index_nonneg hlen hp0) ?_ (index_le hlen hq0 hq1)
  exact mul_le_mul_of_nonneg_right ((div_le_div_right (by norm_num)).2 hpq)
    (by exact_mod_cast (by omega : (0 : ℤ) ≤ ((sortSamples s).length : ℤ) - 1))

theorem interpAt_zero (l : List ℤ) : interpAt l 0 = l.getD 0 0 := by
  have h0 : ratTrunc 0 = 0 := by simpa using ratTrunc_intCast 0
  simp only [interpAt, h0]
  split
  · simp
  · norm_num
    exact ratTrunc_intCast _

theorem interpAt_last (l : List ℤ) (hlen : 1 ≤ l.length) :
    interpAt l (((l.length : ℤ) - 1 : ℤ) : ℚ) = l.getD (l.length - 1) 0 := by
  simp only [interpAt, ratTrunc_intCast]
  rw [if_pos (by omega : (l.length : ℤ) ≤ (l.length : ℤ) - 1 + 1)]
  congr 1
  omega

/-- C4: for every non-empty distribution, `Percentile(0)` equals `Min()`
and `Percentile(100)` equals `Max()`. -/
theorem Percentile_endpoints :
    ∀ s : List ℤ, s ≠ [] → Percentile s 0 = Min s ∧ Percentile s 100 = Max s := by
  intro s hne
  have hlen0 : s.length ≠ 0 := fun h => hne (List.length_eq_zero.mp h)
  have hslen := sortSamples_length s
  constructor
  · rw [Percentile_in_range s hlen0 0 (le_refl 0) (by norm_num), Min, if_neg hlen0,
      zero_div, zero_mul]
    exact interpAt_zero _
  · rw [Percentile_in_range s hlen0 100 (by norm_num) (le_refl _), Max, if_neg hlen0]
    have h1 : ((100 : ℚ) / 100) = 1 := by norm_num
    rw [h1, one_mul]
    exact interpAt_last _ (by omega)

/-- Witness for `Percentile_endpoints` on the concrete distribution
[3, 1, 2]. -/
theorem Percentile_endpoints_witness :
    Percentile [3, 1, 2] 0 = Min [3, 1, 2] ∧ Percentile [3, 1, 2] 100 = Max [3, 1, 2] :=
  Percentile_endpoints [3, 1, 2] (by simp)

/-- C3: for every non-empty distribution,
`Min ≤ P50 ≤ P90 ≤ P99 ≤ P99.9 ≤ Max`, and more generally every
percentile for `p ∈ [0, 100]` lies in the closed interval `[Min, Max]`. -/
theorem Percentile_chain :
    ∀ s : List ℤ, s ≠ [] →
      (Min s ≤ Percentile s 50 ∧ Percentile s 50 ≤ Percentile s 90 ∧
       Percentile s 90 ≤ Percentile s 99 ∧ Percentile s 99 ≤ Percentile s 99.9 ∧
       Percentile s 99.9 ≤ Max s) ∧
      ∀ p : ℚ, 0 ≤ p → p ≤ 100 → Min s ≤ Percentile s p ∧ Percentile s p ≤ Max s := by
  intro s hne
  refine ⟨⟨(Percentile_bounds s hne 50 (by norm_num) (by norm_num)).1,
    Percentile_mono s hne 50 90 (by norm_num) (by norm_num) (by norm_num),
    Percentile_mono s hne 90 99 (by norm_num) (by norm_num) (by norm_num),
    Percentile_mono s hne 99 99.9 (by norm_num) (by norm_num) (by norm_num),
    (Percentile_bounds s hne 99.9 (by norm_num) (by norm_num)).2⟩,
    fun p hp0 hp1 => Percentile_bounds s hne p hp0 hp1⟩

/-- Witness for `Percentile_chain` on the concrete distribution [3, 1, 2]. -/
theorem Percentile_chain_witness :
    Min [3, 1, 2] ≤ Percentile [3, 1, 2] 50 ∧
    Percentile [3, 1, 2] 50 ≤ Percentile [3, 1, 2] 90 ∧
    Percentile [3, 1, 2] 90 ≤ Percentile [3, 1, 2] 99 ∧
    Percentile [3, 1, 2] 99 ≤ Percentile [3, 1, 2] 99.9 ∧
    Percentile [3, 1, 2] 99.9 ≤ Max [3, 1, 2] :=
  (Percentile_chain [3, 1, 2] (by simp)).1

/-- C8: every query on the empty distribution returns zero, and for every
distribution an out-of-range percentile argument returns zero. -/
theorem empty_and_out_of_range_queries :
    (Min [] = 0 ∧ Max [] = 0 ∧ Mean [] = 0 ∧ StdDev [] = 0 ∧ ∀ p : ℚ, Percentile [] p = 0) ∧
    ∀ (s : List ℤ) (p : ℚ), p < 0 ∨ p > 100 → Percentile s p = 0 := by
  refine ⟨⟨rfl, rfl, rfl, rfl, fun p => rfl⟩, ?_⟩
  intro s p h
  by_cases h0 : s.length = 0
  · rw [Percentile, if_pos h0]
  · rw [Percentile, if_neg h0, if_pos h]

/-- Witness for `empty_and_out_of_range_queries`: out-of-range percentile
arguments on the concrete distribution [1]. -/
theorem empty_and_out_of_range_queries_witness :
    Percentile [1] 101 = 0 ∧ Percentile [1] (-1) = 0 :=
  ⟨empty_and_out_of_range_queries.2 [1] 101 (Or.inr (by norm_num)),
   empty_and_out_of_range_queries.2 [1] (-1) (Or.inl (by norm_num))⟩

end Stats

namespace Detect

theorem assessBufferbloat_fst (r : BufferbloatResult) :
    (assessBufferbloat r).1 =
      if r.P99Increase > 5.0 then "Severe"
      else if r.P99Increase > 3.0 then "Moderate"
      else if r.P99Increase > 1.5 ∨ r.P50Increase > 2.0 then "Mild"
      else "None" := by
  simp only [assessBufferbloat]
  split_ifs <;> rfl

/-- C2: in every successful `Detect` result, `Severity` follows the fixed
priority order Severe (`p99 > 5`), Moderate (`p99 > 3`),
Mild (`p99 > 1.5` or `p50 > 2`), else None; and `IsBufferbloated` holds
exactly when `p50 > 1.5` or `p99 > 2`. -/
theorem Detect_classification {ε : Type} :
    ∀ (idle : Except ε (List ℤ)) (loads : List (Except ε (List ℤ)))
      (r : BufferbloatResult), Detect idle loads = .ok r →
      (r.Severity =
        if r.P99Increase > 5.0 then "Severe"
        else if r.P99Increase > 3.0 then "Moderate"
        else if r.P99Increase > 1.5 ∨ r.P50Increase > 2.0 then "Mild"
        else "None") ∧
      (r.IsBufferbloated = true ↔ (r.P50Increase > 1.5 ∨ r.P99Increase > 2.0)) := by
  intro idle loads r h
  cases idle with
  | error e => simp [Detect] at h
  | ok xs =>
    simp only [Detect, Except.ok.injEq] at h
    subst h
    refine ⟨assessBufferbloat_fst _, ?_⟩
    exact ⟨fun hb => of_decide_eq_true hb, fun hp => decide_eq_true hp⟩

/-- A concrete successful detection: idle probe returns one 100 µs sample,
the single loaded-phase probe returns one 300 µs sample. -/
def sampleResult : BufferbloatResult :=
  { IdleLatencyP50 := 100, IdleLatencyP99 := 100, IdleLatencyMax := 100
    LoadLatencyP50 := 300, LoadLatencyP99 := 300, LoadLatencyMax := 300
    P50Increase := 3, P99Increase := 3, MaxIncrease := 3
    IsBufferbloated := true, Severity := "Mild"
    Explanation := "Noticeable latency increase under load. Mild buffer bloat - monitor for potential issues." }

theorem Detect_sample :
    Detect (ε := String) (.ok [100]) [.ok [300]] = .ok sampleResult := by
  with_unfolding_all rfl

/-- Witness for `Detect_classification` on a concrete detection run. -/
theorem Detect_classification_witness :
    (sampleResult.Severity =
      if sampleResult.P99Increase > 5.0 then "Severe"
      else if sampleResult.P99Increase > 3.0 then "Moderate"
      else if sampleResult.P99Increase > 1.5 ∨ sampleResult.P50Increase > 2.0 then "Mild"
      else "None") ∧
    (sampleResult.IsBufferbloated = true ↔
      (sampleResult.P50Increase > 1.5 ∨ sampleResult.P99Increase > 2.0)) :=
  Detect_classification (.ok [100]) [.ok [300]] sampleResult Detect_sample

/-- C6: `Detect` fails exactly when the idle-phase probe invocation
fails, and then returns that probe failure wrapped in the
"failed to measure idle latency" error; loaded-phase outcomes (including
failures) never make `Detect` return an error. -/
theorem Detect_error_iff {ε : Type} :
    ∀ (idle : Except ε (List ℤ)) (loads : List (Except ε (List ℤ))),
      (∀ e : ε, idle = .error e →
        Detect idle loads = .error { msg := "failed to measure idle latency", wrapped := e }) ∧
      (∀ xs : List ℤ, idle = .ok xs → (Detect idle loads).isOk = true) := by
  intro idle loads
  constructor
  · intro e he
    subst he
    rfl
  · intro xs hx
    subst hx
    rfl

/-- Witness for `Detect_error_iff`: a failing idle probe produces the
wrapping error, even while every loaded-phase probe fails too. -/
theorem Detect_error_iff_witness :
    Detect (ε := String) (.error "probe failed") [.error "load failed"] =
      .error { msg := "failed to measure idle latency", wrapped := "probe failed" } :=
  (Detect_error_iff (.error "probe failed") [.error "load failed"]).1 "probe failed" rfl

/-- C7: each increase ratio is the loaded/idle quotient only under a
strictly positive idle denominator and is zero otherwise, and `Detect`
with zero loaded-phase probes still succeeds with all-zero loaded stats
and ratios. -/
theorem Detect_ratio_guards {ε : Type} :
    (∀ (idle : Except ε (List ℤ)) (loads : List (Except ε (List ℤ)))
      (r : BufferbloatResult), Detect idle loads = .ok r →
      (r.P50Increase =
        if r.IdleLatencyP50 > 0 then (r.LoadLatencyP50 : ℚ) / (r.IdleLatencyP50 : ℚ) else 0) ∧
      (r.P99Increase =
        if r.IdleLatencyP99 > 0 then (r.LoadLatencyP99 : ℚ) / (r.IdleLatencyP99 : ℚ) else 0) ∧
      (r.MaxIncrease =
        if r.IdleLatencyMax > 0 then (r.LoadLatencyMax : ℚ) / (r.IdleLatencyMax : ℚ) else 0)) ∧
    (∀ xs : List ℤ, (Detect (ε := ε) (.ok xs) []).isOk = true) ∧
    (∀ (xs : List ℤ) (r : BufferbloatResult), Detect (ε := ε) (.ok xs) [] = .ok r →
      r.LoadLatencyP50 = 0 ∧ r.LoadLatencyP99 = 0 ∧ r.LoadLatencyMax = 0 ∧
      r.P50Increase = 0 ∧ r.P99Increase = 0 ∧ r.MaxIncrease = 0) := by
  refine ⟨?_, fun xs => rfl, ?_⟩
  · intro idle loads r h
    cases idle with
    | error e => simp [Detect] at h
    | ok xs =>
      simp only [Detect, Except.ok.injEq] at h
      subst h
      exact ⟨rfl, rfl, rfl⟩
  · intro xs r h
    simp only [Detect, Except.ok.injEq] at h
    subst h
    refine ⟨rfl, rfl, rfl, ?_, ?_, ?_⟩
    · split <;>
        simp [show Stats.Percentile (loadedSamples ([] : List (Except ε (List ℤ)))) 50 = 0 from rfl]
    · split <;>
        simp [show Stats.Percentile (loadedSamples ([] : List (Except ε (List ℤ)))) 99 = 0 from rfl]
    · split <;>
        simp [show Stats.Max (loadedSamples ([] : List (Except ε (List ℤ)))) = 0 from rfl]
end Detect

namespace Detect

/-- Witness for `Detect_ratio_guards` on a concrete detection run. -/
theorem Detect_ratio_guards_witness :
    (sampleResult.P50Increase =
      if sampleResult.IdleLatencyP50 > 0 then
        (sampleResult.LoadLatencyP50 : ℚ) / (sampleResult.IdleLatencyP50 : ℚ) else 0) ∧
    (sampleResult.P99Increase =
      if sampleResult.IdleLatencyP99 > 0 then
        (sampleResult.LoadLatencyP99 : ℚ) / (sampleResult.IdleLatencyP99 : ℚ) else 0) ∧
    (sampleResult.MaxIncrease =
      if sampleResult.IdleLatencyMax > 0 then
        (sampleResult.LoadLatencyMax : ℚ) / (sampleResult.IdleLatencyMax : ℚ) else 0) :=
  Detect_ratio_guards.1 (.ok [100]) [.ok [300]] sampleResult Detect_sample

end Detect
